import Mathlib

/-!
Shallow embedding of monesonn/tic-tac-toe (Go).

The repository has two source files with identical package contents except
for the minimax search: `src/game.go` implements `minimax` with alpha-beta
parameters, while the unnamed part (part_000) implements the plain
unpruned `minimax`.  Both share `evaluate`, `getPlayerMove`, `min`, `max`
and the constants.  Boards are `[9]int` in Go; here they are `List Int`
(all claims concern length-9 boards).  Go array reads `board[i]` become
`List.getD board i EMPTY`; writes become `List.set` (Go passes `[9]int`
by value, so each recursive call effectively operates on its own copy,
and the `board[i] = EMPTY` reset restores the caller's local copy, which
in the functional embedding is just continuing with the unmodified list).
The search recursion is structural on `depth : Nat`; the Go code only
recurses when `depth != 0`, decrementing it, and every call site passes a
nonnegative depth, so the Nat embedding matches the source on the entire
domain the claims quantify over.
-/

namespace TicTacToe

/-- Go constant EMPTY = 0: empty squares as 0 in the array. -/
def EMPTY : Int := 0

/-- Go constant PLAYER = -1: human squares as -1 in the array. -/
def PLAYER : Int := -1

/-- Go constant AI = 1: computer squares as 1 in the array. -/
def AI : Int := 1

/-- Go constant INF = 2: abstract infinity sentinel for minimax. -/
def INF : Int := 2

/-- Go struct Strategy, packaging move and payoff values. -/
structure Strategy where
  move : Int
  payoff : Int
deriving DecidableEq, Repr

/-- Go helper func min(a, b int) int (source file name: min). -/
def gomin (a b : Int) : Int := if a > b then b else a

/-- Go helper func max(a, b int) int (source file name: max). -/
def gomax (a b : Int) : Int := if a > b then a else b

/-- Go func evaluate(board [9]int) int, with its two three-iteration
loops and two diagonal checks unrolled into the corresponding chain of
early returns: columns (i, i+3, i+6) for i = 0, 1, 2, then rows
(i, i+1, i+2) for i = 0, 3, 6, then the two diagonals; each check
returns the first cell of the first all-equal line, and 0 otherwise. -/
def evaluate (board : List Int) : Int :=
  if board.getD 0 EMPTY = board.getD 3 EMPTY ∧ board.getD 0 EMPTY = board.getD 6 EMPTY then
    board.getD 0 EMPTY
  else if board.getD 1 EMPTY = board.getD 4 EMPTY ∧ board.getD 1 EMPTY = board.getD 7 EMPTY then
    board.getD 1 EMPTY
  else if board.getD 2 EMPTY = board.getD 5 EMPTY ∧ board.getD 2 EMPTY = board.getD 8 EMPTY then
    board.getD 2 EMPTY
  else if board.getD 0 EMPTY = board.getD 1 EMPTY ∧ board.getD 0 EMPTY = board.getD 2 EMPTY then
    board.getD 0 EMPTY
  else if board.getD 3 EMPTY = board.getD 4 EMPTY ∧ board.getD 3 EMPTY = board.getD 5 EMPTY then
    board.getD 3 EMPTY
  else if board.getD 6 EMPTY = board.getD 7 EMPTY ∧ board.getD 6 EMPTY = board.getD 8 EMPTY then
    board.getD 6 EMPTY
  else if board.getD 0 EMPTY = board.getD 4 EMPTY ∧ board.getD 0 EMPTY = board.getD 8 EMPTY then
    board.getD 0 EMPTY
  else if board.getD 2 EMPTY = board.getD 4 EMPTY ∧ board.getD 2 EMPTY = board.getD 6 EMPTY then
    board.getD 2 EMPTY
  else 0

/-- Specification-side predicate: the three cells i, j, k all hold mark m. -/
def lineWin (b : List Int) (m : Int) (i j k : Nat) : Prop :=
  b.getD i EMPTY = m ∧ b.getD j EMPTY = m ∧ b.getD k EMPTY = m

/-- Specification-side predicate: mark m fills some complete row, column,
or diagonal of the board. -/
def winsLine (b : List Int) (m : Int) : Prop :=
  lineWin b m 0 3 6 ∨ lineWin b m 1 4 7 ∨ lineWin b m 2 5 8 ∨
  lineWin b m 0 1 2 ∨ lineWin b m 3 4 5 ∨ lineWin b m 6 7 8 ∨
  lineWin b m 0 4 8 ∨ lineWin b m 2 4 6

instance (b : List Int) (m : Int) (i j k : Nat) : Decidable (lineWin b m i j k) := by
  unfold lineWin; infer_instance

instance (b : List Int) (m : Int) : Decidable (winsLine b m) := by
  unfold winsLine; infer_instance

/-- Cell values a well-formed board may hold. -/
def validCell (c : Int) : Prop := c = EMPTY ∨ c = PLAYER ∨ c = AI

instance (c : Int) : Decidable (validCell c) := by
  unfold validCell; infer_instance

/-- Number of Empty cells of a board. -/
def emptyCount (board : List Int) : Nat :=
  board.countP (fun c => decide (c = EMPTY))

namespace Unpruned

/-- Loop body of the unpruned minimax from part_000, lines 139-154: for
each index i, if board[i] is EMPTY, place the mover there, read the
recursive payoff, update bestVal through max (computer maximizes) or min
(human minimizes), undo the placement, and record i as bestMove whenever
the updated bestVal equals the branch payoff.  The recursive minimax
call is abstracted as the parameter recur. -/
def searchLoop (board : List Int) (player : Int) (recur : List Int → Int → Strategy) :
    List Nat → Int → Int → Int × Int
  | [], bestMove, bestVal => (bestMove, bestVal)
  | i :: rest, bestMove, bestVal =>
    if board.getD i EMPTY = EMPTY then
      let branchVal := (recur (board.set i player) (-player)).payoff
      let bestVal2 := if player = AI then gomax branchVal bestVal else gomin branchVal bestVal
      let bestMove2 := if bestVal2 = branchVal then (i : Int) else bestMove
      searchLoop board player recur rest bestMove2 bestVal2
    else
      searchLoop board player recur rest bestMove bestVal

/-- Go func minimax(board [9]int, player, depth int) Strategy from
part_000, lines 115-157 (no pruning): return {-1, evaluation} at a
decided position, {-1, 0} at depth 0, and otherwise run the search loop
over indices 0..8 with bestVal seeded to -INF for the computer and +INF
for the human. -/
def minimax (board : List Int) (player : Int) : Nat → Strategy
  | 0 =>
    let evaluation := evaluate board
    if evaluation ≠ 0 then { move := -1, payoff := evaluation }
    else { move := -1, payoff := 0 }
  | depth + 1 =>
    let evaluation := evaluate board
    if evaluation ≠ 0 then { move := -1, payoff := evaluation }
    else
      let bestVal : Int := if player = AI then -INF else INF
      let r := searchLoop board player (fun b p => minimax b p depth) (List.range 9) (-1) bestVal
      { move := r.1, payoff := r.2 }

end Unpruned

namespace Pruned

/-- Loop body of the alpha-beta minimax from game.go, lines 111-134.
After bestVal is updated through max (respectively min), the code tests
bestVal < branchVal (respectively bestVal > branchVal) before touching
alpha (beta); on alpha >= beta (beta <= alpha) it breaks out of the loop,
skipping the undo and the bestMove update for that index.  The break
returns the accumulated (bestMove, bestVal) directly. -/
def searchLoop (board : List Int) (player : Int)
    (recur : List Int → Int → Int → Int → Strategy) :
    List Nat → Int → Int → Int → Int → Int × Int
  | [], bestMove, bestVal, _alpha, _beta => (bestMove, bestVal)
  | i :: rest, bestMove, bestVal, alpha, beta =>
    if board.getD i EMPTY = EMPTY then
      let branchVal := (recur (board.set i player) alpha beta (-player)).payoff
      if player = AI then
        let bestVal2 := gomax branchVal bestVal
        if bestVal2 < branchVal then
          let alpha2 := gomax alpha bestVal2
          if alpha2 ≥ beta then (bestMove, bestVal2)
          else
            let bestMove2 := if bestVal2 = branchVal then (i : Int) else bestMove
            searchLoop board player recur rest bestMove2 bestVal2 alpha2 beta
        else
          let bestMove2 := if bestVal2 = branchVal then (i : Int) else bestMove
          searchLoop board player recur rest bestMove2 bestVal2 alpha beta
      else
        let bestVal2 := gomin branchVal bestVal
        if bestVal2 > branchVal then
          let beta2 := gomin beta bestVal2
          if beta2 ≤ alpha then (bestMove, bestVal2)
          else
            let bestMove2 := if bestVal2 = branchVal then (i : Int) else bestMove
            searchLoop board player recur rest bestMove2 bestVal2 alpha beta2
        else
          let bestMove2 := if bestVal2 = branchVal then (i : Int) else bestMove
          searchLoop board player recur rest bestMove2 bestVal2 alpha beta
    else
      searchLoop board player recur rest bestMove bestVal alpha beta

/-- Go func minimax(board [9]int, depth, alpha, beta, player int)
Strategy from game.go, lines 92-136, with alpha-beta parameters; the
base cases are identical to the unpruned variant and the loop is the
alpha-beta loop above. -/
def minimax (board : List Int) (alpha beta player : Int) : Nat → Strategy
  | 0 =>
    let evaluation := evaluate board
    if evaluation ≠ 0 then { move := -1, payoff := evaluation }
    else { move := -1, payoff := 0 }
  | depth + 1 =>
    let evaluation := evaluate board
    if evaluation ≠ 0 then { move := -1, payoff := evaluation }
    else
      let bestVal : Int := if player = AI then -INF else INF
      let r := searchLoop board player (fun b a b2 p => minimax b a b2 p depth)
        (List.range 9) (-1) bestVal alpha beta
      { move := r.1, payoff := r.2 }

end Pruned

/-- Result of the modelled getPlayerMove: ok carries the updated board
and the unread inputs; fault models a Go runtime panic (index out of
range); noInput means the modelled input stream ran dry while the code
was still re-prompting. -/
inductive MoveResult where
  | ok (board : List Int) (rest : List Int)
  | fault
  | noInput
deriving DecidableEq, Repr

/-- Loop of Go func getPlayerMove (game.go lines 158-163): the condition
board[move-1] != EMPTY || move < 1 || move > 9 evaluates board[move-1]
first, so a move outside 1..9 faults (Go panics with index out of range
on the [9]int array) before the range tests can short-circuit; an
occupied in-range cell re-prompts, reading the next input; an Empty
in-range cell exits the loop and board[move-1] = PLAYER is executed. -/
def playerMoveLoop (board : List Int) : Int → List Int → MoveResult
  | move, inputs =>
    if move - 1 < 0 ∨ 9 ≤ move - 1 then MoveResult.fault
    else if board.getD (move - 1).toNat EMPTY ≠ EMPTY ∨ move < 1 ∨ move > 9 then
      match inputs with
      | [] => MoveResult.noInput
      | m :: rest => playerMoveLoop board m rest
    else MoveResult.ok (board.set (move - 1).toNat PLAYER) inputs

/-- Go func getPlayerMove(board *[9]int) (game.go lines 150-164),
modelled over an explicit stream of integers produced by successive
Scanf reads (a failed Scanf leaves move at its zero value, which the
stream models as the integer 0). -/
def getPlayerMove (board : List Int) (inputs : List Int) : MoveResult :=
  match inputs with
  | [] => MoveResult.noInput
  | m :: rest => playerMoveLoop board m rest

/-- First index from the candidate list denoting an Empty cell (0 when
none is Empty); used by the certificate strategies below. -/
def pickFirst (b : List Int) : List Nat → Nat
  | [] => 0
  | i :: rest => if b.getD i EMPTY = EMPTY then i else pickFirst b rest

/-- Boolean form of winsLine, used by the certificate strategies. -/
def winsB (b : List Int) (m : Int) : Bool := decide (winsLine b m)

/-- First Empty index whose occupation by mark completes a full line
for mark (geometric detection, independent of the evaluation order of
evaluate). -/
def findWin (b : List Int) (mark : Int) : Option Nat :=
  (List.range 9).find? (fun i =>
    decide (b.getD i EMPTY = EMPTY) && winsB (b.set i mark) mark)

/-- Number of immediately line-completing moves available to mark. -/
def countWins (b : List Int) (mark : Int) : Nat :=
  ((List.range 9).filter (fun j =>
    decide (b.getD j EMPTY = EMPTY) && winsB (b.set j mark) mark)).length

/-- First Empty index where mark could create a double threat (two
line-completing follow-up moves at once). -/
def forkSquare (b : List Int) (mark : Int) : Option Nat :=
  (List.range 9).find? (fun i =>
    decide (b.getD i EMPTY = EMPTY) && decide (2 ≤ countWins (b.set i mark) mark))

/-- Certificate strategy for the human side: win, block, centre, edge
response against opposite-corner openings, fork denial, then corners
and edges in a fixed order.  Its only role is to witness that the human
can always steer the game to a non-positive payoff; the checker below
validates it exhaustively against every computer continuation. -/
def hStrat (b : List Int) : Nat :=
  match findWin b PLAYER with
  | some i => i
  | none =>
    match findWin b AI with
    | some i => i
    | none =>
      if b.getD 4 EMPTY = EMPTY then 4
      else if ((b.getD 0 EMPTY = AI ∧ b.getD 8 EMPTY = AI) ∨
               (b.getD 2 EMPTY = AI ∧ b.getD 6 EMPTY = AI)) ∧ b.getD 4 EMPTY = PLAYER then
        pickFirst b [1, 3, 5, 7]
      else
        match forkSquare b AI with
        | some i => i
        | none => pickFirst b [0, 2, 6, 8, 1, 3, 5, 7]

/-- Certificate strategy for the computer side: win, block, centre,
fork denial, then corners and edges.  Its only role is to witness that
the computer can always steer the game to a non-negative payoff. -/
def aiStrat (b : List Int) : Nat :=
  match findWin b AI with
  | some i => i
  | none =>
    match findWin b PLAYER with
    | some i => i
    | none =>
      if b.getD 4 EMPTY = EMPTY then 4
      else
        match forkSquare b PLAYER with
        | some i => i
        | none => pickFirst b [0, 2, 6, 8, 1, 3, 5, 7]

/-- Bounded game-tree checker certifying payoff <= 0: at computer nodes
every Empty cell is explored; at human nodes only the strategy move is
followed (which must name an Empty cell inside the board).  Soundness
with respect to the embedded minimax is proved below. -/
def checkLE (smove : List Int → Nat) (side : Int) : Nat → List Int → Bool
  | 0, b =>
    if evaluate b ≠ 0 then decide (evaluate b ≤ 0) else true
  | e + 1, b =>
    if evaluate b ≠ 0 then decide (evaluate b ≤ 0)
    else if side = AI then
      (List.range 9).all (fun i =>
        if b.getD i EMPTY = EMPTY then checkLE smove PLAYER e (b.set i AI) else true)
    else
      let j := smove b
      decide (j < 9) && decide (b.getD j EMPTY = EMPTY) &&
        checkLE smove AI e (b.set j PLAYER)

/-- Bounded game-tree checker certifying payoff >= 0: at human nodes
every Empty cell is explored; at computer nodes only the strategy move
is followed. -/
def checkGE (smove : List Int → Nat) (side : Int) : Nat → List Int → Bool
  | 0, b =>
    if evaluate b ≠ 0 then decide (0 ≤ evaluate b) else true
  | e + 1, b =>
    if evaluate b ≠ 0 then decide (0 ≤ evaluate b)
    else if side = AI then
      let j := smove b
      decide (j < 9) && decide (b.getD j EMPTY = EMPTY) &&
        checkGE smove PLAYER e (b.set j AI)
    else
      (List.range 9).all (fun i =>
        if b.getD i EMPTY = EMPTY then checkGE smove AI e (b.set i PLAYER) else true)

/-! Helper lemmas. -/

theorem gomax_left (a b : Int) : a ≤ gomax a b := by
  unfold gomax; split <;> omega

theorem gomax_right (a b : Int) : b ≤ gomax a b := by
  unfold gomax; split <;> omega

theorem gomax_cases (a b : Int) : gomax a b = a ∨ gomax a b = b := by
  unfold gomax; split <;> simp

theorem gomin_left (a b : Int) : gomin a b ≤ a := by
  unfold gomin; split <;> omega

theorem gomin_right (a b : Int) : gomin a b ≤ b := by
  unfold gomin; split <;> omega

theorem gomin_cases (a b : Int) : gomin a b = a ∨ gomin a b = b := by
  unfold gomin; split <;> simp

/-- Unfolding equation for the unpruned minimax at successor depth. -/
theorem Unpruned.minimax_succ (board : List Int) (player : Int) (depth : Nat) :
    Unpruned.minimax board player (depth + 1) =
      (if evaluate board ≠ 0 then { move := -1, payoff := evaluate board }
       else
         let r := Unpruned.searchLoop board player (fun b p => Unpruned.minimax b p depth)
           (List.range 9) (-1) (if player = AI then -INF else INF)
         { move := r.1, payoff := r.2 }) := rfl

/-- Unfolding equation for the unpruned minimax at depth zero. -/
theorem Unpruned.minimax_zero (board : List Int) (player : Int) :
    Unpruned.minimax board player 0 =
      (if evaluate board ≠ 0 then { move := -1, payoff := evaluate board }
       else { move := -1, payoff := 0 }) := rfl

/-- Main invariants of the unpruned search loop for the maximizing
player: the running best only grows, it dominates every explored branch,
it is attained by the seed or some branch, the recorded move is left
alone exactly when no branch payoff matches the final best, and
otherwise the recorded move is the last matching branch. -/
theorem Unpruned.searchLoop_AI (board : List Int) (player : Int) (hp : player = AI)
    (recur : List Int → Int → Strategy) :
    ∀ (l : List Nat) (m v : Int),
      v ≤ (Unpruned.searchLoop board player recur l m v).2 ∧
      (∀ i ∈ l, board.getD i EMPTY = EMPTY →
        (recur (board.set i player) (-player)).payoff ≤
          (Unpruned.searchLoop board player recur l m v).2) ∧
      ((Unpruned.searchLoop board player recur l m v).2 = v ∨
        ∃ i ∈ l, board.getD i EMPTY = EMPTY ∧
          (recur (board.set i player) (-player)).payoff =
            (Unpruned.searchLoop board player recur l m v).2) ∧
      ((∀ i ∈ l, board.getD i EMPTY = EMPTY →
          (recur (board.set i player) (-player)).payoff ≠
            (Unpruned.searchLoop board player recur l m v).2) →
        (Unpruned.searchLoop board player recur l m v).1 = m) ∧
      ((∃ i ∈ l, board.getD i EMPTY = EMPTY ∧
          (recur (board.set i player) (-player)).payoff =
            (Unpruned.searchLoop board player recur l m v).2) →
        ∃ l₁ j l₂, l = l₁ ++ j :: l₂ ∧ board.getD j EMPTY = EMPTY ∧
          (recur (board.set j player) (-player)).payoff =
            (Unpruned.searchLoop board player recur l m v).2 ∧
          (Unpruned.searchLoop board player recur l m v).1 = (j : Int) ∧
          ∀ k ∈ l₂, board.getD k EMPTY = EMPTY →
            (recur (board.set k player) (-player)).payoff ≠
              (Unpruned.searchLoop board player recur l m v).2) := by
  intro l
  induction l with
  | nil =>
    intro m v
    refine ⟨le_refl v, ?_, Or.inl rfl, fun _ => rfl, ?_⟩
    · intro i hi; simp at hi
    · rintro ⟨i, hi, -⟩; simp at hi
  | cons i rest ih =>
    intro m v
    by_cases hi : board.getD i EMPTY = EMPTY
    · have hloop : Unpruned.searchLoop board player recur (i :: rest) m v =
        Unpruned.searchLoop board player recur rest
          (if (gomax (recur (board.set i player) (-player)).payoff v =
                (recur (board.set i player) (-player)).payoff)
            then (i : Int) else m)
          (gomax (recur (board.set i player) (-player)).payoff v) := by
        simp only [Unpruned.searchLoop, hi, if_true, hp, if_pos rfl]
      set bv := (recur (board.set i player) (-player)).payoff with hbv
      set v1 := gomax bv v with hv1
      set m1 := (if v1 = bv then (i : Int) else m) with hm1
      rw [hloop]
      obtain ⟨ih1, ih2, ih3, ih4, ih5⟩ := ih m1 v1
      set r := Unpruned.searchLoop board player recur rest m1 v1 with hr
      have hvv1 : v ≤ v1 := gomax_right bv v
      have hbvv1 : bv ≤ v1 := gomax_left bv v
      refine ⟨le_trans hvv1 ih1, ?_, ?_, ?_, ?_⟩
      · intro k hk hke
        rcases List.mem_cons.1 hk with hk | hk
        · subst hk; exact le_trans hbvv1 ih1
        · exact ih2 k hk hke
      · rcases ih3 with h3 | ⟨k, hk, hke, hkp⟩
        · rcases gomax_cases bv v with hc | hc
          · exact Or.inr ⟨i, List.mem_cons_self i rest, hi, by rw [← hbv, ← hc, ← hv1, h3]⟩
          · exact Or.inl (by rw [h3, hv1, hc])
        · exact Or.inr ⟨k, List.mem_cons_of_mem i hk, hke, hkp⟩
      · intro hnone
        have hm1m : m1 = m := by
          rw [hm1, if_neg]
          intro hv1bv
          have h1 : bv ≠ r.2 := hnone i (List.mem_cons_self i rest) hi
          have h2 : bv ≤ r.2 := by rw [← hv1bv]; exact ih1
          rcases ih3 with h3 | ⟨k, hk, hke, hkp⟩
          · exact h1 (by rw [h3, hv1bv])
          · exact hnone k (List.mem_cons_of_mem i hk) hke hkp
        rw [← hm1m]
        exact ih4 fun k hk hke => hnone k (List.mem_cons_of_mem i hk) hke
      · intro hex
        by_cases hrest : ∃ k ∈ rest, board.getD k EMPTY = EMPTY ∧
            (recur (board.set k player) (-player)).payoff = r.2
        · obtain ⟨l₁, j, l₂, hsplit, hje, hjp, hjm, hlast⟩ := ih5 hrest
          exact ⟨i :: l₁, j, l₂, by rw [hsplit]; rfl, hje, hjp, hjm, hlast⟩
        · have hieq : bv = r.2 := by
            obtain ⟨k, hk, hke, hkp⟩ := hex
            rcases List.mem_cons.1 hk with hk | hk
            · subst hk; exact hkp
            · exact absurd ⟨k, hk, hke, hkp⟩ hrest
          have hv1bv : v1 = bv := le_antisymm (by rw [hieq]; exact ih1) hbvv1
          have hm1i : m1 = (i : Int) := by rw [hm1, if_pos hv1bv]
          have hrm : r.1 = m1 :=
            ih4 fun k hk hke hkp => hrest ⟨k, hk, hke, hkp⟩
          refine ⟨[], i, rest, rfl, hi, hieq, by rw [hrm, hm1i], ?_⟩
          intro k hk hke hkp
          exact hrest ⟨k, hk, hke, hkp⟩
    · have hloop : Unpruned.searchLoop board player recur (i :: rest) m v =
        Unpruned.searchLoop board player recur rest m v := by
        simp only [Unpruned.searchLoop, hi, if_false]
      rw [hloop]
      obtain ⟨ih1, ih2, ih3, ih4, ih5⟩ := ih m v
      refine ⟨ih1, ?_, ?_, ?_, ?_⟩
      · intro k hk hke
        rcases List.mem_cons.1 hk with hk | hk
        · subst hk; exact absurd hke hi
        · exact ih2 k hk hke
      · rcases ih3 with h3 | ⟨k, hk, hke, hkp⟩
        · exact Or.inl h3
        · exact Or.inr ⟨k, List.mem_cons_of_mem i hk, hke, hkp⟩
      · intro hnone
        exact ih4 fun k hk hke => hnone k (List.mem_cons_of_mem i hk) hke
      · intro hex
        have hrest : ∃ k ∈ rest, board.getD k EMPTY = EMPTY ∧
            (recur (board.set k player) (-player)).payoff =
              (Unpruned.searchLoop board player recur rest m v).2 := by
          obtain ⟨k, hk, hke, hkp⟩ := hex
          rcases List.mem_cons.1 hk with hk | hk
          · subst hk; exact absurd hke hi
          · exact ⟨k, hk, hke, hkp⟩
        obtain ⟨l₁, j, l₂, hsplit, hje, hjp, hjm, hlast⟩ := ih5 hrest
        exact ⟨i :: l₁, j, l₂, by rw [hsplit]; rfl, hje, hjp, hjm, hlast⟩

/-- Main invariants of the unpruned search loop for the minimizing
player, mirroring the maximizer lemma. -/
theorem Unpruned.searchLoop_min (board : List Int) (player : Int) (hp : player ≠ AI)
    (recur : List Int → Int → Strategy) :
    ∀ (l : List Nat) (m v : Int),
      (Unpruned.searchLoop board player recur l m v).2 ≤ v ∧
      (∀ i ∈ l, board.getD i EMPTY = EMPTY →
        (Unpruned.searchLoop board player recur l m v).2 ≤
          (recur (board.set i player) (-player)).payoff) ∧
      ((Unpruned.searchLoop board player recur l m v).2 = v ∨
        ∃ i ∈ l, board.getD i EMPTY = EMPTY ∧
          (recur (board.set i player) (-player)).payoff =
            (Unpruned.searchLoop board player recur l m v).2) ∧
      ((∀ i ∈ l, board.getD i EMPTY = EMPTY →
          (recur (board.set i player) (-player)).payoff ≠
            (Unpruned.searchLoop board player recur l m v).2) →
        (Unpruned.searchLoop board player recur l m v).1 = m) ∧
      ((∃ i ∈ l, board.getD i EMPTY = EMPTY ∧
          (recur (board.set i player) (-player)).payoff =
            (Unpruned.searchLoop board player recur l m v).2) →
        ∃ l₁ j l₂, l = l₁ ++ j :: l₂ ∧ board.getD j EMPTY = EMPTY ∧
          (recur (board.set j player) (-player)).payoff =
            (Unpruned.searchLoop board player recur l m v).2 ∧
          (Unpruned.searchLoop board player recur l m v).1 = (j : Int) ∧
          ∀ k ∈ l₂, board.getD k EMPTY = EMPTY →
            (recur (board.set k player) (-player)).payoff ≠
              (Unpruned.searchLoop board player recur l m v).2) := by
  intro l
  induction l with
  | nil =>
    intro m v
    refine ⟨le_refl v, ?_, Or.inl rfl, fun _ => rfl, ?_⟩
    · intro i hi; simp at hi
    · rintro ⟨i, hi, -⟩; simp at hi
  | cons i rest ih =>
    intro m v
    by_cases hi : board.getD i EMPTY = EMPTY
    · have hloop : Unpruned.searchLoop board player recur (i :: rest) m v =
        Unpruned.searchLoop board player recur rest
          (if (gomin (recur (board.set i player) (-player)).payoff v =
                (recur (board.set i player) (-player)).payoff)
            then (i : Int) else m)
          (gomin (recur (board.set i player) (-player)).payoff v) := by
        simp only [Unpruned.searchLoop, hi, if_true, if_neg hp]
      set bv := (recur (board.set i player) (-player)).payoff with hbv
      set v1 := gomin bv v with hv1
      set m1 := (if v1 = bv then (i : Int) else m) with hm1
      rw [hloop]
      obtain ⟨ih1, ih2, ih3, ih4, ih5⟩ := ih m1 v1
      set r := Unpruned.searchLoop board player recur rest m1 v1 with hr
      have hvv1 : v1 ≤ v := gomin_right bv v
      have hbvv1 : v1 ≤ bv := gomin_left bv v
      refine ⟨le_trans ih1 hvv1, ?_, ?_, ?_, ?_⟩
      · intro k hk hke
        rcases List.mem_cons.1 hk with hk | hk
        · subst hk; exact le_trans ih1 hbvv1
        · exact ih2 k hk hke
      · rcases ih3 with h3 | ⟨k, hk, hke, hkp⟩
        · rcases gomin_cases bv v with hc | hc
          · exact Or.inr ⟨i, List.mem_cons_self i rest, hi, by rw [← hbv, ← hc, ← hv1, h3]⟩
          · exact Or.inl (by rw [h3, hv1, hc])
        · exact Or.inr ⟨k, List.mem_cons_of_mem i hk, hke, hkp⟩
      · intro hnone
        have hm1m : m1 = m := by
          rw [hm1, if_neg]
          intro hv1bv
          have h1 : bv ≠ r.2 := hnone i (List.mem_cons_self i rest) hi
          rcases ih3 with h3 | ⟨k, hk, hke, hkp⟩
          · exact h1 (by rw [h3, hv1bv])
          · exact hnone k (List.mem_cons_of_mem i hk) hke hkp
        rw [← hm1m]
        exact ih4 fun k hk hke => hnone k (List.mem_cons_of_mem i hk) hke
      · intro hex
        by_cases hrest : ∃ k ∈ rest, board.getD k EMPTY = EMPTY ∧
            (recur (board.set k player) (-player)).payoff = r.2
        · obtain ⟨l₁, j, l₂, hsplit, hje, hjp, hjm, hlast⟩ := ih5 hrest
          exact ⟨i :: l₁, j, l₂, by rw [hsplit]; rfl, hje, hjp, hjm, hlast⟩
        · have hieq : bv = r.2 := by
            obtain ⟨k, hk, hke, hkp⟩ := hex
            rcases List.mem_cons.1 hk with hk | hk
            · subst hk; exact hkp
            · exact absurd ⟨k, hk, hke, hkp⟩ hrest
          have hv1bv : v1 = bv := le_antisymm hbvv1 (by rw [hieq]; exact ih1)
          have hm1i : m1 = (i : Int) := by rw [hm1, if_pos hv1bv]
          have hrm : r.1 = m1 :=
            ih4 fun k hk hke hkp => hrest ⟨k, hk, hke, hkp⟩
          refine ⟨[], i, rest, rfl, hi, hieq, by rw [hrm, hm1i], ?_⟩
          intro k hk hke hkp
          exact hrest ⟨k, hk, hke, hkp⟩
    · have hloop : Unpruned.searchLoop board player recur (i :: rest) m v =
        Unpruned.searchLoop board player recur rest m v := by
        simp only [Unpruned.searchLoop, hi, if_false]
      rw [hloop]
      obtain ⟨ih1, ih2, ih3, ih4, ih5⟩ := ih m v
      refine ⟨ih1, ?_, ?_, ?_, ?_⟩
      · intro k hk hke
        rcases List.mem_cons.1 hk with hk | hk
        · subst hk; exact absurd hke hi
        · exact ih2 k hk hke
      · rcases ih3 with h3 | ⟨k, hk, hke, hkp⟩
        · exact Or.inl h3
        · exact Or.inr ⟨k, List.mem_cons_of_mem i hk, hke, hkp⟩
      · intro hnone
        exact ih4 fun k hk hke => hnone k (List.mem_cons_of_mem i hk) hke
      · intro hex
        have hrest : ∃ k ∈ rest, board.getD k EMPTY = EMPTY ∧
            (recur (board.set k player) (-player)).payoff =
              (Unpruned.searchLoop board player recur rest m v).2 := by
          obtain ⟨k, hk, hke, hkp⟩ := hex
          rcases List.mem_cons.1 hk with hk | hk
          · subst hk; exact absurd hke hi
          · exact ⟨k, hk, hke, hkp⟩
        obtain ⟨l₁, j, l₂, hsplit, hje, hjp, hjm, hlast⟩ := ih5 hrest
        exact ⟨i :: l₁, j, l₂, by rw [hsplit]; rfl, hje, hjp, hjm, hlast⟩

theorem PLAYER_ne_AI : PLAYER ≠ AI := by decide

theorem neg_AI_eq : -AI = PLAYER := by decide

theorem neg_PLAYER_eq : -PLAYER = AI := by decide

theorem validCell_AI : validCell AI := by decide

theorem validCell_PLAYER : validCell PLAYER := by decide

theorem validCell_range {c : Int} (h : validCell c) : -INF ≤ c ∧ c ≤ INF := by
  rcases h with rfl | rfl | rfl <;> decide

/-- Reading inside the bounds of a length-9 board yields a member. -/
theorem getD_mem {board : List Int} (h9 : board.length = 9) {k : Nat} (hk : k < 9) :
    board.getD k EMPTY ∈ board := by
  rw [List.getD_eq_getElem?_getD, List.getElem?_eq_getElem (by omega), Option.getD_some]
  exact List.getElem_mem _

/-- Setting a valid cell on a valid board keeps every cell valid. -/
theorem valid_set {board : List Int} (hc : ∀ c ∈ board, validCell c) {x : Int}
    (hx : validCell x) (i : Nat) : ∀ c ∈ board.set i x, validCell c := by
  intro c hcm
  rcases List.mem_or_eq_of_mem_set hcm with h | h
  · exact hc c h
  · exact h ▸ hx

/-- On boards whose cells are all marks, evaluate returns a mark. -/
theorem evaluate_valid {board : List Int} (h9 : board.length = 9)
    (hc : ∀ c ∈ board, validCell c) : validCell (evaluate board) := by
  unfold evaluate
  split_ifs <;>
    first
      | exact hc _ (getD_mem h9 (by norm_num))
      | exact Or.inl rfl

/-- At an undecided position of positive depth the minimax payoff is
the search-loop best value. -/
theorem Unpruned.minimax_payoff_succ (board : List Int) (player : Int) (depth : Nat)
    (hev : evaluate board = 0) :
    (Unpruned.minimax board player (depth + 1)).payoff =
      (Unpruned.searchLoop board player (fun b p => Unpruned.minimax b p depth)
        (List.range 9) (-1) (if player = AI then -INF else INF)).2 := by
  rw [Unpruned.minimax_succ, if_neg (by simp [hev])]

/-- At an undecided position of positive depth the minimax move is the
search-loop best move. -/
theorem Unpruned.minimax_move_succ (board : List Int) (player : Int) (depth : Nat)
    (hev : evaluate board = 0) :
    (Unpruned.minimax board player (depth + 1)).move =
      (Unpruned.searchLoop board player (fun b p => Unpruned.minimax b p depth)
        (List.range 9) (-1) (if player = AI then -INF else INF)).1 := by
  rw [Unpruned.minimax_succ, if_neg (by simp [hev])]

/-- The unpruned minimax payoff always stays within the sentinel range
on well-formed boards. -/
theorem Unpruned.payoff_range (depth : Nat) :
    ∀ (board : List Int) (player : Int), board.length = 9 →
      (∀ c ∈ board, validCell c) → (player = AI ∨ player = PLAYER) →
      -INF ≤ (Unpruned.minimax board player depth).payoff ∧
        (Unpruned.minimax board player depth).payoff ≤ INF := by
  induction depth with
  | zero =>
    intro board player h9 hc _
    rw [Unpruned.minimax_zero]
    split_ifs
    · exact validCell_range (evaluate_valid h9 hc)
    · decide
  | succ depth ih =>
    intro board player h9 hc hp
    by_cases hev : evaluate board = 0
    · rw [Unpruned.minimax_payoff_succ board player depth hev]
      rcases hp with hpa | hpp
      · subst hpa
        rw [if_pos rfl]
        obtain ⟨h1, h2, h3, -, -⟩ := Unpruned.searchLoop_AI board AI rfl
          (fun b p => Unpruned.minimax b p depth) (List.range 9) (-1) (-INF)
        refine ⟨h1, ?_⟩
        rcases h3 with h3 | ⟨i, -, -, hip⟩
        · rw [h3]; decide
        · rw [← hip]
          exact (ih (board.set i AI) (-AI) (by simpa using h9)
            (valid_set hc validCell_AI i) (Or.inr neg_AI_eq)).2
      · subst hpp
        rw [if_neg PLAYER_ne_AI]
        obtain ⟨h1, h2, h3, -, -⟩ := Unpruned.searchLoop_min board PLAYER PLAYER_ne_AI
          (fun b p => Unpruned.minimax b p depth) (List.range 9) (-1) INF
        refine ⟨?_, h1⟩
        rcases h3 with h3 | ⟨i, -, -, hip⟩
        · rw [h3]; decide
        · rw [← hip]
          exact (ih (board.set i PLAYER) (-PLAYER) (by simpa using h9)
            (valid_set hc validCell_PLAYER i) (Or.inl neg_PLAYER_eq)).1
    · rw [Unpruned.minimax_succ, if_pos hev]
      exact validCell_range (evaluate_valid h9 hc)

/-- Soundness of the payoff upper-bound checker: if checkLE validates a
strategy for the human side, the minimax payoff is at most zero. -/
theorem checkLE_sound (smove : List Int → Nat) :
    ∀ (d : Nat) (side : Int) (b : List Int), side = AI ∨ side = PLAYER →
      checkLE smove side d b = true → (Unpruned.minimax b side d).payoff ≤ 0 := by
  intro d
  induction d with
  | zero =>
    intro side b _ h
    rw [Unpruned.minimax_zero]
    by_cases hev : evaluate b ≠ 0
    · simp only [checkLE, if_pos hev, decide_eq_true_eq] at h
      rw [if_pos hev]
      exact h
    · rw [if_neg hev]
  | succ e ih =>
    intro side b hp h
    by_cases hev : evaluate b ≠ 0
    · simp only [checkLE, if_pos hev, decide_eq_true_eq] at h
      rw [Unpruned.minimax_succ, if_pos hev]
      exact h
    · push_neg at hev
      rw [Unpruned.minimax_payoff_succ b side e hev]
      simp only [checkLE] at h
      rw [if_neg (show ¬evaluate b ≠ 0 by simp [hev])] at h
      rcases hp with hside | hside
      · subst hside
        rw [if_pos rfl]
        rw [if_pos rfl] at h
        obtain ⟨-, -, h3, -, -⟩ := Unpruned.searchLoop_AI b AI rfl
          (fun b2 p => Unpruned.minimax b2 p e) (List.range 9) (-1) (-INF)
        rcases h3 with h3 | ⟨i, hi, hie, hip⟩
        · rw [h3]; decide
        · rw [← hip]
          have hcheck := List.all_eq_true.1 h i hi
          rw [if_pos hie] at hcheck
          have := ih PLAYER (b.set i AI) (Or.inr rfl) hcheck
          rwa [neg_AI_eq]
      · subst hside
        rw [if_neg PLAYER_ne_AI]
        rw [if_neg PLAYER_ne_AI] at h
        simp only [Bool.and_eq_true, decide_eq_true_eq] at h
        obtain ⟨⟨hj9, hje⟩, hcheck⟩ := h
        obtain ⟨-, h2, -, -, -⟩ := Unpruned.searchLoop_min b PLAYER PLAYER_ne_AI
          (fun b2 p => Unpruned.minimax b2 p e) (List.range 9) (-1) INF
        refine le_trans (h2 (smove b) (List.mem_range.2 hj9) hje) ?_
        have := ih AI (b.set (smove b) PLAYER) (Or.inl rfl) hcheck
        rwa [neg_PLAYER_eq]

/-- Soundness of the payoff lower-bound checker: if checkGE validates a
strategy for the computer side, the minimax payoff is at least zero. -/
theorem checkGE_sound (smove : List Int → Nat) :
    ∀ (d : Nat) (side : Int) (b : List Int), side = AI ∨ side = PLAYER →
      checkGE smove side d b = true → 0 ≤ (Unpruned.minimax b side d).payoff := by
  intro d
  induction d with
  | zero =>
    intro side b _ h
    rw [Unpruned.minimax_zero]
    by_cases hev : evaluate b ≠ 0
    · simp only [checkGE, if_pos hev, decide_eq_true_eq] at h
      rw [if_pos hev]
      exact h
    · rw [if_neg hev]
  | succ e ih =>
    intro side b hp h
    by_cases hev : evaluate b ≠ 0
    · simp only [checkGE, if_pos hev, decide_eq_true_eq] at h
      rw [Unpruned.minimax_succ, if_pos hev]
      exact h
    · push_neg at hev
      rw [Unpruned.minimax_payoff_succ b side e hev]
      simp only [checkGE] at h
      rw [if_neg (show ¬evaluate b ≠ 0 by simp [hev])] at h
      rcases hp with hside | hside
      · subst hside
        rw [if_pos rfl]
        rw [if_pos rfl] at h
        simp only [Bool.and_eq_true, decide_eq_true_eq] at h
        obtain ⟨⟨hj9, hje⟩, hcheck⟩ := h
        obtain ⟨-, h2, -, -, -⟩ := Unpruned.searchLoop_AI b AI rfl
          (fun b2 p => Unpruned.minimax b2 p e) (List.range 9) (-1) (-INF)
        refine le_trans ?_ (h2 (smove b) (List.mem_range.2 hj9) hje)
        have := ih PLAYER (b.set (smove b) AI) (Or.inr rfl) hcheck
        rwa [neg_AI_eq]
      · subst hside
        rw [if_neg PLAYER_ne_AI]
        rw [if_neg PLAYER_ne_AI] at h
        obtain ⟨-, -, h3, -, -⟩ := Unpruned.searchLoop_min b PLAYER PLAYER_ne_AI
          (fun b2 p => Unpruned.minimax b2 p e) (List.range 9) (-1) INF
        rcases h3 with h3 | ⟨i, hi, hie, hip⟩
        · rw [h3]; decide
        · rw [← hip]
          have hcheck := List.all_eq_true.1 h i hi
          rw [if_pos hie] at hcheck
          have := ih AI (b.set i PLAYER) (Or.inl rfl) hcheck
          rwa [neg_PLAYER_eq]

theorem not_gomax_lt (a b : Int) : ¬ gomax a b < a := by
  unfold gomax; split <;> omega

theorem not_gomin_gt (a b : Int) : ¬ gomin a b > a := by
  unfold gomin; split <;> omega

/-- Unfolding equation for the alpha-beta minimax at successor depth. -/
theorem Pruned.minimax_ab_succ (board : List Int) (alpha beta player : Int) (depth : Nat) :
    Pruned.minimax board alpha beta player (depth + 1) =
      (if evaluate board ≠ 0 then { move := -1, payoff := evaluate board }
       else
         let r := Pruned.searchLoop board player
           (fun b a b2 p => Pruned.minimax b a b2 p depth)
           (List.range 9) (-1) (if player = AI then -INF else INF) alpha beta
         { move := r.1, payoff := r.2 }) := rfl

/-- Unfolding equation for the alpha-beta minimax at depth zero. -/
theorem Pruned.minimax_ab_zero (board : List Int) (alpha beta player : Int) :
    Pruned.minimax board alpha beta player 0 =
      (if evaluate board ≠ 0 then { move := -1, payoff := evaluate board }
       else { move := -1, payoff := 0 }) := rfl

/-- The alpha-beta search loop of game.go is extensionally the plain
loop: after bestVal is updated through max (min), the guard
bestVal < branchVal (bestVal > branchVal) can never hold, so alpha and
beta are never tightened and the break is unreachable. -/
theorem Pruned.searchLoop_eq (board : List Int) (player : Int)
    (recurP : List Int → Int → Int → Int → Strategy) (recurU : List Int → Int → Strategy)
    (hrec : ∀ b a b2 p, recurP b a b2 p = recurU b p) :
    ∀ (l : List Nat) (m v alpha beta : Int),
      Pruned.searchLoop board player recurP l m v alpha beta =
        Unpruned.searchLoop board player recurU l m v := by
  intro l
  induction l with
  | nil => intro m v alpha beta; rfl
  | cons i rest ih =>
    intro m v alpha beta
    by_cases hi : board.getD i EMPTY = EMPTY
    · by_cases hpl : player = AI
      · simp only [Pruned.searchLoop, Unpruned.searchLoop, hi, if_true, if_pos hpl,
          hrec, if_neg (not_gomax_lt _ _)]
        exact ih _ _ alpha beta
      · simp only [Pruned.searchLoop, Unpruned.searchLoop, hi, if_true, if_neg hpl,
          hrec, if_neg (not_gomin_gt _ _)]
        exact ih _ _ alpha beta
    · simp only [Pruned.searchLoop, Unpruned.searchLoop, hi, if_false]
      exact ih m v alpha beta

/-- The alpha-beta minimax of game.go returns exactly the strategy of
the unpruned minimax of part_000, for every alpha and beta. -/
theorem Pruned.minimax_eq :
    ∀ (depth : Nat) (board : List Int) (alpha beta player : Int),
      Pruned.minimax board alpha beta player depth = Unpruned.minimax board player depth := by
  intro depth
  induction depth with
  | zero => intro board alpha beta player; rfl
  | succ depth ih =>
    intro board alpha beta player
    rw [Pruned.minimax_ab_succ, Unpruned.minimax_succ]
    by_cases hev : evaluate board ≠ 0
    · rw [if_pos hev, if_pos hev]
    · rw [if_neg hev, if_neg hev]
      have hloop := Pruned.searchLoop_eq board player
        (fun b a b2 p => Pruned.minimax b a b2 p depth)
        (fun b p => Unpruned.minimax b p depth)
        (fun b a b2 p => ih b a b2 p)
        (List.range 9) (-1) (if player = AI then -INF else INF) alpha beta
      rw [hloop]

theorem getD_set_self {board : List Int} {i : Nat} (hi : i < board.length) (x : Int) :
    (board.set i x).getD i EMPTY = x := by
  rw [List.getD_eq_getElem?_getD, List.getElem?_set_self hi, Option.getD_some]

theorem getD_set_ne {board : List Int} {i j : Nat} (h : i ≠ j) (x : Int) :
    (board.set i x).getD j EMPTY = board.getD j EMPTY := by
  rw [List.getD_eq_getElem?_getD, List.getElem?_set_ne h, ← List.getD_eq_getElem?_getD]

/-- A board with a non-zero count of Empty cells has an Empty cell at
some index below 9. -/
theorem exists_empty_of_emptyCount {board : List Int} (h9 : board.length = 9)
    (h : emptyCount board ≠ 0) : ∃ i, i < 9 ∧ board.getD i EMPTY = EMPTY := by
  have hpos : 0 < board.countP (fun c => decide (c = EMPTY)) := Nat.pos_of_ne_zero h
  obtain ⟨c, hcmem, hcp⟩ := List.countP_pos_iff.1 hpos
  obtain ⟨n, hn, hget⟩ := List.mem_iff_getElem.1 hcmem
  have hce : c = EMPTY := of_decide_eq_true hcp
  refine ⟨n, by omega, ?_⟩
  rw [List.getD_eq_getElem?_getD, List.getElem?_eq_getElem hn, Option.getD_some, hget, hce]

theorem countP_set_lemma (p : Int → Bool) : ∀ (l : List Int) (i : Nat), i < l.length →
    p (l.getD i EMPTY) = true → ∀ x, p x = false →
      (l.set i x).countP p + 1 = l.countP p := by
  intro l
  induction l with
  | nil => intro i hi; simp at hi
  | cons c t ih =>
    intro i hi hp x hx
    cases i with
    | zero =>
      simp only [List.getD_cons_zero] at hp
      simp only [List.set_cons_zero]
      have hx2 : ¬ p x = true := by simp [hx]
      rw [List.countP_cons_of_neg _ _ hx2, List.countP_cons_of_pos _ _ hp]
    | succ k =>
      simp only [List.getD_cons_succ] at hp
      simp only [List.set_cons_succ]
      have hk : k < t.length := by simp at hi; omega
      by_cases hc : p c = true
      · rw [List.countP_cons_of_pos _ _ hc, List.countP_cons_of_pos _ _ hc]
        have := ih k hk hp x hx
        omega
      · rw [List.countP_cons_of_neg _ _ hc, List.countP_cons_of_neg _ _ hc]
        exact ih k hk hp x hx

/-- Placing a non-Empty mark on an Empty cell lowers the Empty-cell
count by exactly one. -/
theorem emptyCount_set {board : List Int} {i : Nat} (hi : i < board.length)
    (he : board.getD i EMPTY = EMPTY) {x : Int} (hx : ¬ x = EMPTY) :
    emptyCount (board.set i x) + 1 = emptyCount board := by
  unfold emptyCount
  exact countP_set_lemma _ board i hi (by rw [he]; decide) x (decide_eq_false hx)

theorem validCell_m101 {c : Int} (h : validCell c) : c = -1 ∨ c = 0 ∨ c = 1 := by
  rcases h with rfl | rfl | rfl
  · exact Or.inr (Or.inl rfl)
  · exact Or.inl rfl
  · exact Or.inr (Or.inr rfl)

/-- Soundness of a non-zero evaluation: the returned mark fills one of
the eight lines. -/
theorem winsLine_of_evaluate {board : List Int} {m : Int}
    (hm : evaluate board = m) (hm0 : m ≠ 0) : winsLine board m := by
  unfold evaluate at hm
  unfold winsLine lineWin
  split_ifs at hm with e1 e2 e3 e4 e5 e6 e7 e8
  · subst hm; exact Or.inl ⟨rfl, e1.1.symm, e1.2.symm⟩
  · subst hm; exact Or.inr (Or.inl ⟨rfl, e2.1.symm, e2.2.symm⟩)
  · subst hm; exact Or.inr (Or.inr (Or.inl ⟨rfl, e3.1.symm, e3.2.symm⟩))
  · subst hm; exact Or.inr (Or.inr (Or.inr (Or.inl ⟨rfl, e4.1.symm, e4.2.symm⟩)))
  · subst hm; exact Or.inr (Or.inr (Or.inr (Or.inr (Or.inl ⟨rfl, e5.1.symm, e5.2.symm⟩))))
  · subst hm
    exact Or.inr (Or.inr (Or.inr (Or.inr (Or.inr (Or.inl ⟨rfl, e6.1.symm, e6.2.symm⟩)))))
  · subst hm
    exact Or.inr (Or.inr (Or.inr (Or.inr (Or.inr (Or.inr
      (Or.inl ⟨rfl, e7.1.symm, e7.2.symm⟩))))))
  · subst hm
    exact Or.inr (Or.inr (Or.inr (Or.inr (Or.inr (Or.inr
      (Or.inr ⟨rfl, e8.1.symm, e8.2.symm⟩))))))
  · exact absurd hm.symm hm0

/-- Completeness of the evaluation in the absence of an all-Empty line:
if some non-Empty mark fills a line and no line is entirely Empty, the
evaluation is non-zero. -/
theorem evaluate_ne_zero_of_winsLine {board : List Int} {m : Int}
    (hne : ¬ winsLine board EMPTY) (hw : winsLine board m) :
    evaluate board ≠ 0 := by
  intro h0
  unfold evaluate at h0
  split_ifs at h0 with e1 e2 e3 e4 e5 e6 e7 e8
  · exact hne (Or.inl ⟨h0, e1.1.symm.trans h0, e1.2.symm.trans h0⟩)
  · exact hne (Or.inr (Or.inl ⟨h0, e2.1.symm.trans h0, e2.2.symm.trans h0⟩))
  · exact hne (Or.inr (Or.inr (Or.inl ⟨h0, e3.1.symm.trans h0, e3.2.symm.trans h0⟩)))
  · exact hne (Or.inr (Or.inr (Or.inr (Or.inl ⟨h0, e4.1.symm.trans h0, e4.2.symm.trans h0⟩))))
  · exact hne (Or.inr (Or.inr (Or.inr (Or.inr
      (Or.inl ⟨h0, e5.1.symm.trans h0, e5.2.symm.trans h0⟩)))))
  · exact hne (Or.inr (Or.inr (Or.inr (Or.inr (Or.inr
      (Or.inl ⟨h0, e6.1.symm.trans h0, e6.2.symm.trans h0⟩))))))
  · exact hne (Or.inr (Or.inr (Or.inr (Or.inr (Or.inr (Or.inr
      (Or.inl ⟨h0, e7.1.symm.trans h0, e7.2.symm.trans h0⟩)))))))
  · exact hne (Or.inr (Or.inr (Or.inr (Or.inr (Or.inr (Or.inr
      (Or.inr ⟨h0, e8.1.symm.trans h0, e8.2.symm.trans h0⟩)))))))
  · rcases hw with ⟨ha, hb, hcc⟩ | ⟨ha, hb, hcc⟩ | ⟨ha, hb, hcc⟩ | ⟨ha, hb, hcc⟩ |
      ⟨ha, hb, hcc⟩ | ⟨ha, hb, hcc⟩ | ⟨ha, hb, hcc⟩ | ⟨ha, hb, hcc⟩
    · exact e1 ⟨ha.trans hb.symm, ha.trans hcc.symm⟩
    · exact e2 ⟨ha.trans hb.symm, ha.trans hcc.symm⟩
    · exact e3 ⟨ha.trans hb.symm, ha.trans hcc.symm⟩
    · exact e4 ⟨ha.trans hb.symm, ha.trans hcc.symm⟩
    · exact e5 ⟨ha.trans hb.symm, ha.trans hcc.symm⟩
    · exact e6 ⟨ha.trans hb.symm, ha.trans hcc.symm⟩
    · exact e7 ⟨ha.trans hb.symm, ha.trans hcc.symm⟩
    · exact e8 ⟨ha.trans hb.symm, ha.trans hcc.symm⟩

/-- At depth zero the minimax payoff is exactly the evaluation. -/
theorem Unpruned.payoff_zero_eq (board : List Int) (player : Int) :
    (Unpruned.minimax board player 0).payoff = evaluate board := by
  rw [Unpruned.minimax_zero]
  split_ifs with h
  · rfl
  · push_neg at h
    exact h.symm

/-- On a well-formed undecided board with at least one Empty cell, the
search loop records as best move the last Empty index whose branch
payoff equals the final best value; the split of the index list
witnesses the position of that index. -/
theorem Unpruned.move_last (board : List Int) (player : Int) (depth : Nat)
    (h9 : board.length = 9) (hc : ∀ c ∈ board, validCell c)
    (hp : player = AI ∨ player = PLAYER)
    (hex : ∃ i, i < 9 ∧ board.getD i EMPTY = EMPTY) :
    ∃ l₁ j l₂, List.range 9 = l₁ ++ j :: l₂ ∧ board.getD j EMPTY = EMPTY ∧
      (Unpruned.minimax (board.set j player) (-player) depth).payoff =
        (Unpruned.searchLoop board player (fun b p => Unpruned.minimax b p depth)
          (List.range 9) (-1) (if player = AI then -INF else INF)).2 ∧
      (Unpruned.searchLoop board player (fun b p => Unpruned.minimax b p depth)
        (List.range 9) (-1) (if player = AI then -INF else INF)).1 = (j : Int) ∧
      ∀ k ∈ l₂, board.getD k EMPTY = EMPTY →
        (Unpruned.minimax (board.set k player) (-player) depth).payoff ≠
          (Unpruned.searchLoop board player (fun b p => Unpruned.minimax b p depth)
            (List.range 9) (-1) (if player = AI then -INF else INF)).2 := by
  obtain ⟨i0, hi09, hi0e⟩ := hex
  have hi0r : i0 ∈ List.range 9 := List.mem_range.2 hi09
  rcases hp with hpa | hpp
  · subst hpa
    rw [if_pos rfl]
    obtain ⟨h1, h2, h3, -, h5⟩ := Unpruned.searchLoop_AI board AI rfl
      (fun b p => Unpruned.minimax b p depth) (List.range 9) (-1) (-INF)
    apply h5
    rcases h3 with h3 | hatt
    · refine ⟨i0, hi0r, hi0e, ?_⟩
      have hlow := (Unpruned.payoff_range depth (board.set i0 AI) (-AI)
        (by simpa using h9) (valid_set hc validCell_AI i0) (Or.inr neg_AI_eq)).1
      have hup := h2 i0 hi0r hi0e
      rw [h3] at hup ⊢
      omega
    · exact hatt
  · subst hpp
    rw [if_neg PLAYER_ne_AI]
    obtain ⟨h1, h2, h3, -, h5⟩ := Unpruned.searchLoop_min board PLAYER PLAYER_ne_AI
      (fun b p => Unpruned.minimax b p depth) (List.range 9) (-1) INF
    apply h5
    rcases h3 with h3 | hatt
    · refine ⟨i0, hi0r, hi0e, ?_⟩
      have hhigh := (Unpruned.payoff_range depth (board.set i0 PLAYER) (-PLAYER)
        (by simpa using h9) (valid_set hc validCell_PLAYER i0) (Or.inl neg_PLAYER_eq)).2
      have hup := h2 i0 hi0r hi0e
      rw [h3] at hup ⊢
      omega
    · exact hatt

/-! Claim theorems. -/

/-- C1: for every board, every player to move, every emptyCellCount
(depth) and in fact every alpha and beta, the alpha-beta-pruned search
(minimax of game.go) and the unpruned search (minimax of part_000)
return the same payoff.  The guard that would tighten alpha or beta
tests the best value against the branch value after the max/min update
and is therefore unreachable, so the two searches agree exactly. -/
theorem claim_C1 (board : List Int) (alpha beta player : Int) (depth : Nat) :
    (Pruned.minimax board alpha beta player depth).payoff =
      (Unpruned.minimax board player depth).payoff := by
  rw [Pruned.minimax_eq]

/-- C2, as claimed, is false: on the board [0,1,0, 0,1,0, 0,1,0] -
cells all in {Empty, PlayerMark, AiMark} - the AiMark fills the middle
column, yet evaluate returns 0, because the all-Empty first column is
checked earlier and returns its common value 0.  So a non-empty mark
fills a complete line while evaluate reports no winner. -/
theorem claim_C2_counterexample :
    ([0, 1, 0, 0, 1, 0, 0, 1, 0] : List Int).length = 9 ∧
    (∀ c ∈ ([0, 1, 0, 0, 1, 0, 0, 1, 0] : List Int), validCell c) ∧
    winsLine [0, 1, 0, 0, 1, 0, 0, 1, 0] AI ∧ AI ≠ EMPTY ∧
    evaluate [0, 1, 0, 0, 1, 0, 0, 1, 0] = 0 := by decide

/-- C2 (amended): for every board whose 9 cells are in
{Empty, PlayerMark, AiMark}, evaluate returns a value in {-1, 0, +1},
and any non-zero value returned is the mark of a player whose marks
occupy a full row, column, or diagonal; provided additionally that no
row, column, or diagonal consists of three Empty cells, evaluate
returns a non-zero mark exactly when some non-empty mark fills a
complete line. -/
theorem claim_C2 (board : List Int) (h9 : board.length = 9)
    (hc : ∀ c ∈ board, validCell c) :
    (evaluate board = -1 ∨ evaluate board = 0 ∨ evaluate board = 1) ∧
    (∀ m, evaluate board = m → m ≠ 0 → winsLine board m) ∧
    (¬ winsLine board EMPTY →
      (evaluate board ≠ 0 ↔ ∃ m, m ≠ EMPTY ∧ winsLine board m)) := by
  refine ⟨validCell_m101 (evaluate_valid h9 hc),
    fun m hm hm0 => winsLine_of_evaluate hm hm0, fun hne => ⟨?_, ?_⟩⟩
  · intro h0
    exact ⟨evaluate board, h0, winsLine_of_evaluate rfl h0⟩
  · rintro ⟨m, -, hw⟩
    exact evaluate_ne_zero_of_winsLine hne hw

/-- C2 witness at a concrete full board with no all-Empty line. -/
theorem claim_C2_witness :
    (([1, -1, 1, -1, 1, -1, -1, 1, -1] : List Int).length = 9 ∧
      (∀ c ∈ ([1, -1, 1, -1, 1, -1, -1, 1, -1] : List Int), validCell c)) ∧
    ((evaluate [1, -1, 1, -1, 1, -1, -1, 1, -1] = -1 ∨
      evaluate [1, -1, 1, -1, 1, -1, -1, 1, -1] = 0 ∨
      evaluate [1, -1, 1, -1, 1, -1, -1, 1, -1] = 1) ∧
    (∀ m, evaluate [1, -1, 1, -1, 1, -1, -1, 1, -1] = m → m ≠ 0 →
      winsLine [1, -1, 1, -1, 1, -1, -1, 1, -1] m) ∧
    (¬ winsLine [1, -1, 1, -1, 1, -1, -1, 1, -1] EMPTY →
      (evaluate [1, -1, 1, -1, 1, -1, -1, 1, -1] ≠ 0 ↔
        ∃ m, m ≠ EMPTY ∧ winsLine [1, -1, 1, -1, 1, -1, -1, 1, -1] m))) :=
  ⟨⟨by decide, by decide⟩, claim_C2 [1, -1, 1, -1, 1, -1, -1, 1, -1] (by decide) (by decide)⟩

/-- C3: the claim that getPlayerMove never faults is false in the code.
The loop condition evaluates board[move-1] before the range tests
move < 1 and move > 9, so on the all-Empty board the inputs 10 and 0
index the [9]int array out of bounds: a Go runtime panic, modelled as
the fault result.  The claim (and the spec) say such input is
re-prompted and never surfaces as a program error; the intent is clear
from the re-prompt loop itself, so this is a bug in the code. -/
theorem claim_C3 :
    getPlayerMove (List.replicate 9 EMPTY) [10] = MoveResult.fault ∧
    getPlayerMove (List.replicate 9 EMPTY) [0] = MoveResult.fault ∧
    getPlayerMove (List.replicate 9 EMPTY) [5, 7] =
      MoveResult.ok ((List.replicate 9 EMPTY).set 4 PLAYER) [7] := by decide

/-- C6: for every board, player and emptyCellCount, a non-zero
evaluation makes both searches return the no-move sentinel -1 with the
evaluation as payoff, regardless of emptyCellCount; and when the
evaluation is zero and emptyCellCount is 0 both return the sentinel
with payoff 0.  The win/loss check precedes the draw check: a non-zero
evaluation wins even at emptyCellCount 0. -/
theorem claim_C6 (board : List Int) (player alpha beta : Int) (depth : Nat) :
    (evaluate board ≠ 0 →
      Unpruned.minimax board player depth = { move := -1, payoff := evaluate board } ∧
      Pruned.minimax board alpha beta player depth =
        { move := -1, payoff := evaluate board }) ∧
    (evaluate board = 0 →
      Unpruned.minimax board player 0 = { move := -1, payoff := 0 } ∧
      Pruned.minimax board alpha beta player 0 = { move := -1, payoff := 0 }) := by
  constructor
  · intro hev
    have hu : Unpruned.minimax board player depth =
        { move := -1, payoff := evaluate board } := by
      cases depth with
      | zero => rw [Unpruned.minimax_zero, if_pos hev]
      | succ d => rw [Unpruned.minimax_succ, if_pos hev]
    exact ⟨hu, by rw [Pruned.minimax_eq]; exact hu⟩
  · intro hev
    have hu : Unpruned.minimax board player 0 = { move := -1, payoff := 0 } := by
      rw [Unpruned.minimax_zero, if_neg (by simp [hev])]
    exact ⟨hu, by rw [Pruned.minimax_eq]; exact hu⟩

/-- C6 witness: a decided board (top row of AiMarks) at positive depth,
and an undecided board at emptyCellCount 0. -/
theorem claim_C6_witness :
    (evaluate [1, 1, 1, 0, 0, 0, 0, 0, 0] ≠ 0 ∧
      Unpruned.minimax [1, 1, 1, 0, 0, 0, 0, 0, 0] AI 5 =
        { move := -1, payoff := evaluate [1, 1, 1, 0, 0, 0, 0, 0, 0] } ∧
      Pruned.minimax [1, 1, 1, 0, 0, 0, 0, 0, 0] (-INF) INF AI 5 =
        { move := -1, payoff := evaluate [1, 1, 1, 0, 0, 0, 0, 0, 0] }) ∧
    (evaluate [1, -1, 1, -1, 1, -1, -1, 1, -1] = 0 ∧
      Unpruned.minimax [1, -1, 1, -1, 1, -1, -1, 1, -1] PLAYER 0 =
        { move := -1, payoff := 0 } ∧
      Pruned.minimax [1, -1, 1, -1, 1, -1, -1, 1, -1] (-INF) INF PLAYER 0 =
        { move := -1, payoff := 0 }) :=
  ⟨⟨by decide, (claim_C6 [1, 1, 1, 0, 0, 0, 0, 0, 0] AI (-INF) INF 5).1 (by decide)⟩,
   ⟨by decide, (claim_C6 [1, -1, 1, -1, 1, -1, -1, 1, -1] PLAYER (-INF) INF 0).2 (by decide)⟩⟩

set_option maxRecDepth 1000000 in
set_option maxHeartbeats 1000000 in
/-- C9: on the board [Ai,Ai,Empty, Human,Human,Empty, Empty,Empty,Empty]
with the Ai to move and the spec's stated count of 4 empty cells, both
searches select index 2, completing the top row, with payoff +1. -/
theorem claim_C9 :
    Unpruned.minimax [AI, AI, EMPTY, PLAYER, PLAYER, EMPTY, EMPTY, EMPTY, EMPTY] AI 4 =
      { move := 2, payoff := 1 } ∧
    Pruned.minimax [AI, AI, EMPTY, PLAYER, PLAYER, EMPTY, EMPTY, EMPTY, EMPTY]
      (-INF) INF AI 4 = { move := 2, payoff := 1 } := by
  have h : Unpruned.minimax [AI, AI, EMPTY, PLAYER, PLAYER, EMPTY, EMPTY, EMPTY, EMPTY]
      AI 4 = { move := 2, payoff := 1 } := by decide!
  exact ⟨h, by rw [Pruned.minimax_eq]; exact h⟩

set_option maxRecDepth 1000000 in
set_option maxHeartbeats 1000000 in
/-- C8: from the all-Empty board with the Ai to move and emptyCellCount
9, both searches return payoff 0: perfect play from the empty board is
a draw.  The payoff is squeezed between the two strategy certificates:
checkLE with the human strategy witnesses payoff at most 0, checkGE
with the computer strategy witnesses payoff at least 0. -/
theorem claim_C8 :
    (Unpruned.minimax (List.replicate 9 EMPTY) AI 9).payoff = 0 ∧
    (Pruned.minimax (List.replicate 9 EMPTY) (-INF) INF AI 9).payoff = 0 := by
  have hle : checkLE hStrat AI 9 (List.replicate 9 EMPTY) = true := by decide!
  have hge : checkGE aiStrat AI 9 (List.replicate 9 EMPTY) = true := by decide!
  have h0 : (Unpruned.minimax (List.replicate 9 EMPTY) AI 9).payoff = 0 :=
    le_antisymm (checkLE_sound hStrat 9 AI (List.replicate 9 EMPTY) (Or.inl rfl) hle)
      (checkGE_sound aiStrat 9 AI (List.replicate 9 EMPTY) (Or.inl rfl) hge)
  exact ⟨h0, by rw [Pruned.minimax_eq]; exact h0⟩

theorem getD_eq_getElem9 {board : List Int} {n : Nat} (hn : n < board.length) :
    board.getD n EMPTY = board[n] := by
  rw [List.getD_eq_getElem?_getD, List.getElem?_eq_getElem hn, Option.getD_some]

/-- When the depth argument agrees with the number of Empty cells, the
minimax payoff is a mark: -1, 0 or +1, never a sentinel. -/
theorem Unpruned.payoff_exact :
    ∀ (depth : Nat) (board : List Int) (player : Int), board.length = 9 →
      (∀ c ∈ board, validCell c) → (player = AI ∨ player = PLAYER) →
      emptyCount board = depth →
      validCell (Unpruned.minimax board player depth).payoff := by
  intro depth
  induction depth with
  | zero =>
    intro board player h9 hc hp hcount
    rw [Unpruned.minimax_zero]
    split_ifs with h
    · exact evaluate_valid h9 hc
    · exact Or.inl rfl
  | succ d ih =>
    intro board player h9 hc hp hcount
    by_cases hev : evaluate board = 0
    · rw [Unpruned.minimax_payoff_succ board player d hev]
      obtain ⟨i0, hi09, hi0e⟩ := exists_empty_of_emptyCount h9 (by omega)
      have hi0r := List.mem_range.2 hi09
      have hbr : ∀ i, i < 9 → board.getD i EMPTY = EMPTY →
          validCell (Unpruned.minimax (board.set i player) (-player) d).payoff := by
        intro i hi9 hie
        have hpne : ¬ player = EMPTY := by
          rcases hp with rfl | rfl <;> decide
        have hcnt : emptyCount (board.set i player) = d := by
          have := @emptyCount_set board i (by omega : i < board.length) hie player hpne
          omega
        have hval : validCell player := by
          rcases hp with rfl | rfl
          · exact validCell_AI
          · exact validCell_PLAYER
        have hneg : -player = AI ∨ -player = PLAYER := by
          rcases hp with rfl | rfl
          · exact Or.inr neg_AI_eq
          · exact Or.inl neg_PLAYER_eq
        exact ih (board.set i player) (-player) (by simpa using h9)
          (valid_set hc hval i) hneg hcnt
      rcases hp with hpa | hpp
      · subst hpa
        rw [if_pos rfl]
        obtain ⟨-, h2, h3, -, -⟩ := Unpruned.searchLoop_AI board AI rfl
          (fun b p => Unpruned.minimax b p d) (List.range 9) (-1) (-INF)
        rcases h3 with h3 | ⟨i, hi, hie, hip⟩
        · exfalso
          have hup := h2 i0 hi0r hi0e
          rw [h3] at hup
          rcases validCell_m101 (hbr i0 hi09 hi0e) with hh | hh | hh <;>
            rw [hh] at hup <;> norm_num [INF] at hup
        · rw [← hip]
          exact hbr i (List.mem_range.1 hi) hie
      · subst hpp
        rw [if_neg PLAYER_ne_AI]
        obtain ⟨-, h2, h3, -, -⟩ := Unpruned.searchLoop_min board PLAYER PLAYER_ne_AI
          (fun b p => Unpruned.minimax b p d) (List.range 9) (-1) INF
        rcases h3 with h3 | ⟨i, hi, hie, hip⟩
        · exfalso
          have hup := h2 i0 hi0r hi0e
          rw [h3] at hup
          rcases validCell_m101 (hbr i0 hi09 hi0e) with hh | hh | hh <;>
            rw [hh] at hup <;> norm_num [INF] at hup
        · rw [← hip]
          exact hbr i (List.mem_range.1 hi) hie
    · rw [Unpruned.minimax_succ, if_pos hev]
      exact evaluate_valid h9 hc

/-- C5: for every board with cells in {Empty, PlayerMark, AiMark} and
playerToMove in {Human, Ai}, if emptyCellCount equals the actual number
of Empty cells, the payoff returned by the search is in {-1, 0, +1};
the sentinel values -2 and +2 are never returned, and the game.go
search returns the same payoff. -/
theorem claim_C5 (board : List Int) (player : Int) (depth : Nat)
    (h9 : board.length = 9) (hc : ∀ c ∈ board, validCell c)
    (hp : player = AI ∨ player = PLAYER) (hcount : emptyCount board = depth) :
    ((Unpruned.minimax board player depth).payoff = -1 ∨
      (Unpruned.minimax board player depth).payoff = 0 ∨
      (Unpruned.minimax board player depth).payoff = 1) ∧
    ∀ alpha beta, (Pruned.minimax board alpha beta player depth).payoff =
      (Unpruned.minimax board player depth).payoff :=
  ⟨validCell_m101 (Unpruned.payoff_exact depth board player h9 hc hp hcount),
   fun alpha beta => by rw [Pruned.minimax_eq]⟩

/-- C5 witness at the all-Empty board with the Ai to move at count 9. -/
theorem claim_C5_witness :
    ((List.replicate 9 EMPTY).length = 9 ∧
      (∀ c ∈ List.replicate 9 EMPTY, validCell c) ∧
      (AI = AI ∨ AI = PLAYER) ∧ emptyCount (List.replicate 9 EMPTY) = 9) ∧
    (((Unpruned.minimax (List.replicate 9 EMPTY) AI 9).payoff = -1 ∨
      (Unpruned.minimax (List.replicate 9 EMPTY) AI 9).payoff = 0 ∨
      (Unpruned.minimax (List.replicate 9 EMPTY) AI 9).payoff = 1) ∧
    ∀ alpha beta, (Pruned.minimax (List.replicate 9 EMPTY) alpha beta AI 9).payoff =
      (Unpruned.minimax (List.replicate 9 EMPTY) AI 9).payoff) :=
  ⟨⟨by decide, by decide, Or.inl rfl, by decide⟩,
   claim_C5 (List.replicate 9 EMPTY) AI 9 (by decide) (by decide) (Or.inl rfl) (by decide)⟩

/-- C10: at every well-formed undecided position with at least one
Empty cell and positive depth, the move returned by minimax is an index
in 0..8 denoting an Empty cell and never the -1 sentinel, so the main
loop's unchecked board[aiMove] = AI always indexes within bounds and
writes an Empty cell; the game.go search returns the same move. -/
theorem claim_C10 (board : List Int) (player : Int) (depth : Nat)
    (h9 : board.length = 9) (hc : ∀ c ∈ board, validCell c)
    (hp : player = AI ∨ player = PLAYER) (hev : evaluate board = 0)
    (hex : ∃ i, i < 9 ∧ board.getD i EMPTY = EMPTY) :
    (∃ j : Nat, j < 9 ∧ board.getD j EMPTY = EMPTY ∧
      (Unpruned.minimax board player (depth + 1)).move = (j : Int)) ∧
    (Unpruned.minimax board player (depth + 1)).move ≠ -1 ∧
    ∀ alpha beta, (Pruned.minimax board alpha beta player (depth + 1)).move =
      (Unpruned.minimax board player (depth + 1)).move := by
  obtain ⟨l₁, j, l₂, hsplit, hje, hjp, hjm, hlast⟩ :=
    Unpruned.move_last board player depth h9 hc hp hex
  have hjr : j ∈ List.range 9 := by
    rw [hsplit]
    exact List.mem_append_right _ (List.mem_cons_self j l₂)
  have hj9 : j < 9 := List.mem_range.1 hjr
  have hmove := Unpruned.minimax_move_succ board player depth hev
  refine ⟨⟨j, hj9, hje, by rw [hmove]; exact hjm⟩, ?_,
    fun alpha beta => by rw [Pruned.minimax_eq]⟩
  rw [hmove, hjm]
  omega

/-- C10 witness at a concrete undecided position. -/
theorem claim_C10_witness :
    (([1, -1, 0, 0, 0, 0, 0, 0, 0] : List Int).length = 9 ∧
      (∀ c ∈ ([1, -1, 0, 0, 0, 0, 0, 0, 0] : List Int), validCell c) ∧
      (AI = AI ∨ AI = PLAYER) ∧ evaluate [1, -1, 0, 0, 0, 0, 0, 0, 0] = 0 ∧
      (∃ i, i < 9 ∧ ([1, -1, 0, 0, 0, 0, 0, 0, 0] : List Int).getD i EMPTY = EMPTY)) ∧
    ((∃ j : Nat, j < 9 ∧ ([1, -1, 0, 0, 0, 0, 0, 0, 0] : List Int).getD j EMPTY = EMPTY ∧
      (Unpruned.minimax [1, -1, 0, 0, 0, 0, 0, 0, 0] AI (6 + 1)).move = (j : Int)) ∧
    (Unpruned.minimax [1, -1, 0, 0, 0, 0, 0, 0, 0] AI (6 + 1)).move ≠ -1 ∧
    ∀ alpha beta, (Pruned.minimax [1, -1, 0, 0, 0, 0, 0, 0, 0] alpha beta AI (6 + 1)).move =
      (Unpruned.minimax [1, -1, 0, 0, 0, 0, 0, 0, 0] AI (6 + 1)).move) :=
  ⟨⟨by decide, by decide, Or.inl rfl, by decide, ⟨2, by decide, by decide⟩⟩,
   claim_C10 [1, -1, 0, 0, 0, 0, 0, 0, 0] AI 6 (by decide) (by decide) (Or.inl rfl)
     (by decide) ⟨2, by decide, by decide⟩⟩

/-- C4: at every well-formed non-terminal position (evaluation zero,
depth at least 1, some Empty cell), the move returned by the search is
the Empty cell with the highest index among those whose branch payoff
equals the final optimal payoff - the last qualifying candidate in
increasing index order, reflecting that the best-move index is
overwritten on every tie with the updated running best.  The game.go
search returns the identical strategy. -/
theorem claim_C4 (board : List Int) (player : Int) (depth : Nat)
    (h9 : board.length = 9) (hc : ∀ c ∈ board, validCell c)
    (hp : player = AI ∨ player = PLAYER) (hev : evaluate board = 0)
    (hex : ∃ i, i < 9 ∧ board.getD i EMPTY = EMPTY) :
    (∃ j : Nat, j < 9 ∧ board.getD j EMPTY = EMPTY ∧
      (Unpruned.minimax board player (depth + 1)).move = (j : Int) ∧
      (Unpruned.minimax (board.set j player) (-player) depth).payoff =
        (Unpruned.minimax board player (depth + 1)).payoff ∧
      ∀ k, k < 9 → j < k → board.getD k EMPTY = EMPTY →
        (Unpruned.minimax (board.set k player) (-player) depth).payoff ≠
          (Unpruned.minimax board player (depth + 1)).payoff) ∧
    ∀ alpha beta, Pruned.minimax board alpha beta player (depth + 1) =
      Unpruned.minimax board player (depth + 1) := by
  obtain ⟨l₁, j, l₂, hsplit, hje, hjp, hjm, hlast⟩ :=
    Unpruned.move_last board player depth h9 hc hp hex
  have hjr : j ∈ List.range 9 := by
    rw [hsplit]
    exact List.mem_append_right _ (List.mem_cons_self j l₂)
  have hj9 : j < 9 := List.mem_range.1 hjr
  have hmove := Unpruned.minimax_move_succ board player depth hev
  have hpay := Unpruned.minimax_payoff_succ board player depth hev
  refine ⟨⟨j, hj9, hje, by rw [hmove]; exact hjm, by rw [hpay]; exact hjp, ?_⟩,
    fun alpha beta => Pruned.minimax_eq (depth + 1) board alpha beta player⟩
  intro k hk9 hjk hke
  rw [hpay]
  have hpw : (l₁ ++ j :: l₂).Pairwise (· < ·) := by
    rw [← hsplit]
    exact List.pairwise_lt_range 9
  have hkr : k ∈ l₁ ++ j :: l₂ := by
    rw [← hsplit]
    exact List.mem_range.2 hk9
  rcases List.mem_append.1 hkr with hk1 | hk2
  · exfalso
    have := (List.pairwise_append.1 hpw).2.2 k hk1 j (List.mem_cons_self j l₂)
    omega
  · rcases List.mem_cons.1 hk2 with hkj | hk2
    · exfalso; omega
    · exact hlast k hk2 hke

/-- C4 witness at a concrete non-terminal position. -/
theorem claim_C4_witness :
    (([1, -1, 0, 0, 0, 0, 0, 0, 0] : List Int).length = 9 ∧
      (∀ c ∈ ([1, -1, 0, 0, 0, 0, 0, 0, 0] : List Int), validCell c) ∧
      (AI = AI ∨ AI = PLAYER) ∧ evaluate [1, -1, 0, 0, 0, 0, 0, 0, 0] = 0 ∧
      (∃ i, i < 9 ∧ ([1, -1, 0, 0, 0, 0, 0, 0, 0] : List Int).getD i EMPTY = EMPTY)) ∧
    ((∃ j : Nat, j < 9 ∧ ([1, -1, 0, 0, 0, 0, 0, 0, 0] : List Int).getD j EMPTY = EMPTY ∧
      (Unpruned.minimax [1, -1, 0, 0, 0, 0, 0, 0, 0] AI (0 + 1)).move = (j : Int) ∧
      (Unpruned.minimax (([1, -1, 0, 0, 0, 0, 0, 0, 0] : List Int).set j AI) (-AI) 0).payoff =
        (Unpruned.minimax [1, -1, 0, 0, 0, 0, 0, 0, 0] AI (0 + 1)).payoff ∧
      ∀ k, k < 9 → j < k → ([1, -1, 0, 0, 0, 0, 0, 0, 0] : List Int).getD k EMPTY = EMPTY →
        (Unpruned.minimax (([1, -1, 0, 0, 0, 0, 0, 0, 0] : List Int).set k AI) (-AI) 0).payoff ≠
          (Unpruned.minimax [1, -1, 0, 0, 0, 0, 0, 0, 0] AI (0 + 1)).payoff) ∧
    ∀ alpha beta, Pruned.minimax [1, -1, 0, 0, 0, 0, 0, 0, 0] alpha beta AI (0 + 1) =
      Unpruned.minimax [1, -1, 0, 0, 0, 0, 0, 0, 0] AI (0 + 1)) :=
  ⟨⟨by decide, by decide, Or.inl rfl, by decide, ⟨2, by decide, by decide⟩⟩,
   claim_C4 [1, -1, 0, 0, 0, 0, 0, 0, 0] AI 0 (by decide) (by decide) (Or.inl rfl)
     (by decide) ⟨2, by decide, by decide⟩⟩

/-- C7: on any well-formed board with exactly one Empty cell, no
existing winning evaluation, and either player to move, the search at
emptyCellCount 1 returns that unique Empty index as the move together
with the evaluation of the board obtained by placing the mover's mark
there; the game.go search agrees. -/
theorem claim_C7 (board : List Int) (player : Int) (j : Nat)
    (h9 : board.length = 9) (hj9 : j < 9) (hje : board.getD j EMPTY = EMPTY)
    (hrest : ∀ k, k < 9 → k ≠ j →
      board.getD k EMPTY = PLAYER ∨ board.getD k EMPTY = AI)
    (hev : evaluate board = 0) (hp : player = AI ∨ player = PLAYER) :
    Unpruned.minimax board player 1 =
      { move := (j : Int), payoff := evaluate (board.set j player) } ∧
    ∀ alpha beta, Pruned.minimax board alpha beta player 1 =
      Unpruned.minimax board player 1 := by
  have hcells : ∀ c ∈ board, validCell c := by
    intro c hcm
    obtain ⟨n, hn, hget⟩ := List.mem_iff_getElem.1 hcm
    have hn9 : n < 9 := by omega
    by_cases hnj : n = j
    · subst hnj
      left
      rw [← hget, ← getD_eq_getElem9 hn, hje]
    · rcases hrest n hn9 hnj with hh | hh
      · right; left
        rw [← hget, ← getD_eq_getElem9 hn, hh]
      · right; right
        rw [← hget, ← getD_eq_getElem9 hn, hh]
  obtain ⟨l₁, j2, l₂, hsplit, hj2e, hj2p, hj2m, hlast⟩ :=
    Unpruned.move_last board player 0 h9 hcells hp ⟨j, hj9, hje⟩
  have hj2r : j2 ∈ List.range 9 := by
    rw [hsplit]
    exact List.mem_append_right _ (List.mem_cons_self j2 l₂)
  have hj29 : j2 < 9 := List.mem_range.1 hj2r
  have hj2j : j2 = j := by
    by_contra hne
    rcases hrest j2 hj29 hne with hh | hh <;> rw [hh] at hj2e <;>
      exact absurd hj2e (by decide)
  subst hj2j
  refine ⟨?_, fun alpha beta => Pruned.minimax_eq 1 board alpha beta player⟩
  have heta : Unpruned.minimax board player 1 =
      { move := (Unpruned.minimax board player 1).move,
        payoff := (Unpruned.minimax board player 1).payoff } := rfl
  have hmv : (Unpruned.minimax board player 1).move =
      (Unpruned.searchLoop board player (fun b p => Unpruned.minimax b p 0)
        (List.range 9) (-1) (if player = AI then -INF else INF)).1 :=
    Unpruned.minimax_move_succ board player 0 hev
  have hpv : (Unpruned.minimax board player 1).payoff =
      (Unpruned.searchLoop board player (fun b p => Unpruned.minimax b p 0)
        (List.range 9) (-1) (if player = AI then -INF else INF)).2 :=
    Unpruned.minimax_payoff_succ board player 0 hev
  rw [heta, hmv, hpv, hj2m, ← hj2p, Unpruned.payoff_zero_eq]

/-- C7 witness: a board with the single Empty cell at index 8 whose
occupation by the Ai completes the main diagonal. -/
theorem claim_C7_witness :
    (([1, -1, 1, -1, 1, -1, -1, 1, 0] : List Int).length = 9 ∧ 8 < 9 ∧
      ([1, -1, 1, -1, 1, -1, -1, 1, 0] : List Int).getD 8 EMPTY = EMPTY ∧
      (∀ k, k < 9 → k ≠ 8 →
        ([1, -1, 1, -1, 1, -1, -1, 1, 0] : List Int).getD k EMPTY = PLAYER ∨
        ([1, -1, 1, -1, 1, -1, -1, 1, 0] : List Int).getD k EMPTY = AI) ∧
      evaluate [1, -1, 1, -1, 1, -1, -1, 1, 0] = 0 ∧ (AI = AI ∨ AI = PLAYER)) ∧
    (Unpruned.minimax [1, -1, 1, -1, 1, -1, -1, 1, 0] AI 1 =
      { move := (8 : Nat), payoff :=
          evaluate (([1, -1, 1, -1, 1, -1, -1, 1, 0] : List Int).set 8 AI) } ∧
    ∀ alpha beta, Pruned.minimax [1, -1, 1, -1, 1, -1, -1, 1, 0] alpha beta AI 1 =
      Unpruned.minimax [1, -1, 1, -1, 1, -1, -1, 1, 0] AI 1) :=
  ⟨⟨by decide, by decide, by decide, by decide, by decide, Or.inl rfl⟩,
   claim_C7 [1, -1, 1, -1, 1, -1, -1, 1, 0] AI 8 (by decide) (by decide) (by decide)
     (by decide) (by decide) (Or.inl rfl)⟩

end TicTacToe
